import Mathlib

/- Verification of the two scripts of the repository
   (TY_To_mp3_or_mp4.py and Link_to_YT.py) against their design
   specification.  Strings and filesystem paths are modelled as lists of
   characters, the filesystem as the finite list of paths that currently
   exist, and each job as a function from an oracle describing the outside
   world (network, transcoder, user input) to an outcome, a final
   filesystem and a trace of network events. -/

namespace YtDl

/-- A string or path in the model: a list of characters. -/
abbrev Str := List Char

/-- The filesystem model: the finite list of paths that currently exist. -/
abbrev FS := List Str

/-- Creating a file at a path, as a set-like insertion. -/
def createFile (fs : FS) (p : Str) : FS :=
  if p ∈ fs then fs else p :: fs

/-- Character of a decimal digit d, for d less than 10. -/
def digitCh (d : Nat) : Char := Char.ofNat (48 + d)

/-- Numeric value of a decimal digit character. -/
def chVal (c : Char) : Nat := c.toNat - 48

/-- Little-endian decimal digits of n, with explicit fuel. -/
def decDigitsRev (fuel : Nat) (n : Nat) : List Nat :=
  match fuel with
  | 0 => []
  | fuel + 1 => if n = 0 then [] else n % 10 :: decDigitsRev fuel (n / 10)

/-- Decimal rendering of a natural number, modelling the Python
    f-string rendering of the counter. -/
def natDecimal (n : Nat) : Str :=
  if n = 0 then ['0'] else ((decDigitsRev n n).map digitCh).reverse

/-- Little-endian digit-list evaluation, inverse of decDigitsRev. -/
def ofDigitsLE : List Nat → Nat
  | [] => 0
  | d :: ds => d + 10 * ofDigitsLE ds

lemma ofDigitsLE_decDigitsRev : ∀ fuel n, n ≤ fuel → ofDigitsLE (decDigitsRev fuel n) = n := by
  intro fuel
  induction fuel with
  | zero => intro n h; interval_cases n; rfl
  | succ f ih =>
    intro n h
    by_cases hn : n = 0
    · subst hn; simp [decDigitsRev, ofDigitsLE]
    · have hdiv : n / 10 ≤ f := by
        have : n / 10 < n := Nat.div_lt_self (Nat.pos_of_ne_zero hn) (by omega)
        omega
      simp only [decDigitsRev, hn, if_false, ofDigitsLE]
      rw [ih (n / 10) hdiv]
      omega

lemma decDigitsRev_lt_ten : ∀ fuel n d, d ∈ decDigitsRev fuel n → d < 10 := by
  intro fuel
  induction fuel with
  | zero => intro n d h; simp [decDigitsRev] at h
  | succ f ih =>
    intro n d h
    by_cases hn : n = 0
    · subst hn; simp [decDigitsRev] at h
    · simp only [decDigitsRev, hn, if_false, List.mem_cons] at h
      rcases h with h | h
      · subst h; exact Nat.mod_lt _ (by omega)
      · exact ih _ _ h

lemma chVal_digitCh (d : Nat) (h : d < 10) : chVal (digitCh d) = d := by
  interval_cases d <;> rfl

/-- Recover a natural number from its decimal rendering. -/
def recoverNat (s : Str) : Nat := ofDigitsLE (s.reverse.map chVal)

lemma recoverNat_natDecimal (n : Nat) : recoverNat (natDecimal n) = n := by
  by_cases hn : n = 0
  · subst hn; rfl
  · simp only [natDecimal, hn, if_false, recoverNat, List.reverse_reverse]
    rw [List.map_map]
    have hmap : (decDigitsRev n n).map (chVal ∘ digitCh) = (decDigitsRev n n).map id := by
      apply List.map_congr_left
      intro d hd
      exact chVal_digitCh d (decDigitsRev_lt_ten n n d hd)
    rw [hmap, List.map_id]
    exact ofDigitsLE_decDigitsRev n n le_rfl

lemma natDecimal_inj {m n : Nat} (h : natDecimal m = natDecimal n) : m = n := by
  have := recoverNat_natDecimal m
  rw [h, recoverNat_natDecimal] at this
  omega

lemma natDecimal_ne_nil (n : Nat) : natDecimal n ≠ [] := by
  by_cases hn : n = 0
  · subst hn; simp [natDecimal]
  · simp only [natDecimal, hn, if_false]
    cases n with
    | zero => exact absurd rfl hn
    | succ k =>
      simp only [decDigitsRev, Nat.succ_ne_zero, if_false, ne_eq,
        List.reverse_eq_nil_iff, List.map_eq_nil_iff]
      exact List.cons_ne_nil _ _

/-- Index of the last occurrence of a character, if any. -/
def rfindIdx (cs : Str) (c : Char) : Option Nat :=
  match cs.reverse.findIdx? (fun x => x = c) with
  | none => none
  | some j => some (cs.length - 1 - j)

/-- os.path.splitext, following the posixpath algorithm: split at the last
    dot when it lies after the last path separator and the basename has a
    character other than a dot before it. -/
def splitext (p : Str) : Str × Str :=
  match rfindIdx p '.' with
  | none => (p, [])
  | some d =>
    let s : Nat :=
      match rfindIdx p '/' with
      | none => 0
      | some i => i + 1
    if s ≤ d ∧ ((p.drop s).take (d - s)).any (fun c => c ≠ '.') then
      (p.take d, p.drop d)
    else (p, [])

lemma splitext_append (p : Str) : (splitext p).1 ++ (splitext p).2 = p := by
  unfold splitext
  cases hfind : rfindIdx p '.' with
  | none => simp
  | some d =>
    simp only
    split
    · exact List.take_append_drop d p
    · simp

/-- The invalid filename characters removed by sanitize_filename. -/
def invalid_chars : Str := ['<', '>', ':', '"', '/', '\\', '|', '?', '*']

/-- Python str.replace for a single-character pattern and replacement. -/
def replaceChar (s : Str) (c : Char) (r : Char) : Str :=
  s.map (fun x => if x = c then r else x)

/-- sanitize_filename from TY_To_mp3_or_mp4.py: replace each invalid
    character by an underscore, then truncate to 50 characters. -/
def sanitize_filename (filename : Str) : Str :=
  (invalid_chars.foldl (fun acc c => replaceChar acc c '_') filename).take 50

lemma mem_foldl_replace :
    ∀ (l : List Char) (s : Str) (x : Char),
      x ∈ l.foldl (fun acc c => replaceChar acc c '_') s →
      x = '_' ∨ (x ∈ s ∧ x ∉ l) := by
  intro l
  induction l with
  | nil => intro s x h; exact Or.inr ⟨h, List.not_mem_nil x⟩
  | cons c t ih =>
    intro s x h
    simp only [List.foldl_cons] at h
    rcases ih (replaceChar s c '_') x h with h1 | ⟨h1, h2⟩
    · exact Or.inl h1
    · simp only [replaceChar, List.mem_map] at h1
      rcases h1 with ⟨y, hy, hyx⟩
      by_cases hyc : y = c
      · simp [hyc] at hyx; exact Or.inl hyx.symm
      · simp only [hyc, if_false] at hyx
        subst hyx
        refine Or.inr ⟨hy, ?_⟩
        simp only [List.mem_cons, not_or]
        exact ⟨hyc, h2⟩

lemma sanitize_filename_length (s : Str) : (sanitize_filename s).length ≤ 50 := by
  simp only [sanitize_filename, List.length_take]
  omega

lemma sanitize_filename_no_invalid (s : Str) :
    ∀ c, c ∈ sanitize_filename s → c ∉ invalid_chars := by
  intro c hc
  have hmem : c ∈ invalid_chars.foldl (fun acc ch => replaceChar acc ch '_') s :=
    List.take_subset _ _ hc
  rcases mem_foldl_replace invalid_chars s c hmem with h | ⟨_, h⟩
  · subst h; decide
  · exact h

lemma foldl_replace_of_not_mem :
    ∀ (l : List Char) (s : Str), (∀ x ∈ s, x ∉ l) →
      l.foldl (fun acc c => replaceChar acc c '_') s = s := by
  intro l
  induction l with
  | nil => intro s _; rfl
  | cons c t ih =>
    intro s h
    simp only [List.foldl_cons]
    have hrep : replaceChar s c '_' = s := by
      unfold replaceChar
      have : s.map (fun x => if x = c then '_' else x) = s.map id := by
        apply List.map_congr_left
        intro x hx
        have := h x hx
        simp only [List.mem_cons, not_or] at this
        simp [this.1]
      rw [this, List.map_id]
    rw [hrep]
    apply ih
    intro x hx
    have := h x hx
    simp only [List.mem_cons, not_or] at this
    exact this.2

lemma sanitize_filename_idempotent (s : Str) :
    sanitize_filename (sanitize_filename s) = sanitize_filename s := by
  have hnone : ∀ x ∈ sanitize_filename s, x ∉ invalid_chars :=
    fun x hx => sanitize_filename_no_invalid s x hx
  have h1 : invalid_chars.foldl (fun acc c => replaceChar acc c '_') (sanitize_filename s) =
      sanitize_filename s := foldl_replace_of_not_mem invalid_chars _ hnone
  calc sanitize_filename (sanitize_filename s)
      = (invalid_chars.foldl (fun acc c => replaceChar acc c '_') (sanitize_filename s)).take 50 :=
        rfl
    _ = (sanitize_filename s).take 50 := by rw [h1]
    _ = sanitize_filename s := List.take_of_length_le (sanitize_filename_length s)

/-- Candidate filename with a numeric suffix, the f-string
    rendering of base, an underscore, the counter and ext. -/
def cand (base ext : Str) (counter : Nat) : Str :=
  base ++ '_' :: (natDecimal counter ++ ext)

/-- The while loop of ensure_unique_filename, with explicit fuel: try the
    candidate for the current counter, and on collision retry with the
    next counter. -/
def euLoop (fs : FS) (base ext : Str) : Nat → Nat → Str
  | 0, counter => cand base ext counter
  | fuel + 1, counter =>
    if cand base ext counter ∈ fs then euLoop fs base ext fuel (counter + 1)
    else cand base ext counter

/-- ensure_unique_filename from TY_To_mp3_or_mp4.py, over the filesystem
    model: return the path unchanged when it does not exist, otherwise
    append _1, _2, ... before the extension until the path is fresh. -/
def ensure_unique_filename (fs : FS) (filepath : Str) : Str :=
  if filepath ∈ fs then
    euLoop fs (splitext filepath).1 (splitext filepath).2 (fs.length + 1) 1
  else filepath

lemma cand_inj {b e : Str} {i j : Nat} (h : cand b e i = cand b e j) : i = j := by
  unfold cand at h
  have h1 := List.append_cancel_left h
  have h2 : natDecimal i ++ e = natDecimal j ++ e := List.tail_eq_of_cons_eq h1
  exact natDecimal_inj (List.append_cancel_right h2)

lemma cand_length (b e : Str) (n : Nat) :
    (cand b e n).length = b.length + 1 + (natDecimal n).length + e.length := by
  simp [cand]
  omega

lemma cand_ne_base_ext (b e : Str) (n : Nat) : cand b e n ≠ b ++ e := by
  intro h
  have hlen := congrArg List.length h
  rw [cand_length] at hlen
  simp only [List.length_append] at hlen
  have hne : (natDecimal n).length ≠ 0 := by
    simp only [ne_eq, List.length_eq_zero]
    exact natDecimal_ne_nil n
  omega

lemma euLoop_shape (fs : FS) (b e : Str) :
    ∀ fuel counter, ∃ n, counter ≤ n ∧ euLoop fs b e fuel counter = cand b e n := by
  intro fuel
  induction fuel with
  | zero => intro counter; exact ⟨counter, le_rfl, rfl⟩
  | succ f ih =>
    intro counter
    by_cases hmem : cand b e counter ∈ fs
    · rcases ih (counter + 1) with ⟨n, hn, heq⟩
      exact ⟨n, by omega, by simp [euLoop, hmem, heq]⟩
    · exact ⟨counter, le_rfl, by simp [euLoop, hmem]⟩

lemma euLoop_not_mem (fs : FS) (b e : Str) :
    ∀ fuel counter, (∃ k, counter ≤ k ∧ k < counter + fuel ∧ cand b e k ∉ fs) →
      euLoop fs b e fuel counter ∉ fs := by
  intro fuel
  induction fuel with
  | zero =>
    intro counter ⟨k, h1, h2, _⟩
    omega
  | succ f ih =>
    intro counter ⟨k, h1, h2, h3⟩
    by_cases hmem : cand b e counter ∈ fs
    · simp only [euLoop, hmem, if_true]
      apply ih
      have hk : k ≠ counter := fun h => h3 (by rw [h]; exact hmem)
      exact ⟨k, by omega, by omega, h3⟩
    · simp [euLoop, hmem]

lemma exists_cand_not_mem (fs : FS) (b e : Str) :
    ∃ k, 1 ≤ k ∧ k < 1 + (fs.length + 1) ∧ cand b e k ∉ fs := by
  by_contra hcon
  push_neg at hcon
  have hsub : (Finset.Icc 1 (fs.length + 1)).image (cand b e) ⊆ fs.toFinset := by
    intro x hx
    simp only [Finset.mem_image, Finset.mem_Icc] at hx
    rcases hx with ⟨k, ⟨hk1, hk2⟩, hkx⟩
    rw [List.mem_toFinset, ← hkx]
    exact hcon k hk1 (by omega)
  have hcard := Finset.card_le_card hsub
  rw [Finset.card_image_of_injOn (fun i _ j _ h => cand_inj h), Nat.card_Icc] at hcard
  have hle := fs.toFinset_card_le
  omega

lemma ensure_unique_filename_not_mem (fs : FS) (fp : Str) :
    ensure_unique_filename fs fp ∉ fs := by
  unfold ensure_unique_filename
  by_cases h : fp ∈ fs
  · simp only [h, if_true]
    exact euLoop_not_mem fs _ _ (fs.length + 1) 1 (exists_cand_not_mem fs _ _)
  · simp [h]

lemma euLoop_run (fs : FS) (b e : Str) (N : Nat) :
    ∀ fuel counter, counter ≤ N → (∀ k, counter ≤ k → k < N → cand b e k ∈ fs) →
      cand b e N ∉ fs → N - counter < fuel →
      euLoop fs b e fuel counter = cand b e N := by
  intro fuel
  induction fuel with
  | zero => intro counter _ _ _ h4; omega
  | succ f ih =>
    intro counter h1 h2 h3 h4
    by_cases hc : counter = N
    · subst hc
      simp [euLoop, h3]
    · have hlt : counter < N := by omega
      have hmem : cand b e counter ∈ fs := h2 counter le_rfl hlt
      simp only [euLoop, hmem, if_true]
      exact ih (counter + 1) (by omega) (fun k hk1 hk2 => h2 k (by omega) hk2) h3 (by omega)

/-- A stream descriptor from the resolver catalog, with the pytubefix
    Stream attributes the scripts consume.  The abr attribute is modelled
    by its numeric value in kbps. -/
structure StreamDescriptor where
  progressive : Bool
  adaptive : Bool
  only_video : Bool
  only_audio : Bool
  file_extension : Str
  resolution : Option Str
  abr : Option Nat
deriving DecidableEq

/-- Numeric value of the decimal digits occurring in a string, as the
    library computes it for order_by keys on string attributes. -/
def digitsVal (s : Str) : Nat :=
  (s.filter (fun c => c.isDigit)).foldl (fun a c => a * 10 + chVal c) 0

/-- Numeric resolution key of a stream, for order_by on resolution. -/
def resVal (s : StreamDescriptor) : Nat := digitsVal (s.resolution.getD [])

/-- Numeric audio-bitrate key of a stream, for order_by on abr. -/
def abrVal (s : StreamDescriptor) : Nat := s.abr.getD 0

/-- Comparison of two values by a numeric key, the ordering used by the
    library's order_by. -/
def keyLe {α : Type} (f : α → Nat) (a b : α) : Prop := f a ≤ f b

instance {α : Type} (f : α → Nat) : DecidableRel (keyLe f) :=
  fun a b => Nat.decLe (f a) (f b)

instance {α : Type} (f : α → Nat) : IsTotal α (keyLe f) :=
  ⟨fun a b => Nat.le_total (f a) (f b)⟩

instance {α : Type} (f : α → Nat) : IsTrans α (keyLe f) :=
  ⟨fun _ _ _ hab hbc => Nat.le_trans hab hbc⟩

/-- Strict lexicographic comparison of strings by character code point,
    the comparison Python uses on str values. -/
def strLt : Str → Str → Bool
  | [], [] => false
  | [], _ :: _ => true
  | _ :: _, [] => false
  | a :: as, b :: bs =>
    if a.toNat < b.toNat then true
    else if a.toNat = b.toNat then strLt as bs
    else false

/-- Reflexive descending comparison of strings, for sorted(reverse=True). -/
def strGe (a b : Str) : Prop := strLt a b = false

instance : DecidableRel strGe :=
  fun a b => inferInstanceAs (Decidable (strLt a b = false))

/-- Python sorted(xs, reverse=True) over strings. -/
def sortStrDesc (l : List Str) : List Str := List.insertionSort strGe l

/-- The filter predicate of the adaptive MP4 video-only stream query. -/
def adaptiveMp4Video (s : StreamDescriptor) : Bool :=
  s.adaptive && (s.file_extension == ("mp4").data) && s.only_video

/-- The filter predicate of the adaptive audio-only stream query. -/
def adaptiveAudio (s : StreamDescriptor) : Bool := s.adaptive && s.only_audio

/-- The filter predicate of the progressive MP4 stream query. -/
def progressiveMp4 (s : StreamDescriptor) : Bool :=
  s.progressive && (s.file_extension == ("mp4").data)

/-- get_available_resolutions from TY_To_mp3_or_mp4.py: filter the catalog
    to adaptive MP4 video-only streams, order them by resolution
    descending, then return sorted(set of truthy resolution labels,
    reverse=True), which sorts the label strings lexicographically. -/
def get_available_resolutions (catalog : List StreamDescriptor) : List Str :=
  let video_streams :=
    (List.insertionSort (keyLe resVal)
      ((catalog.filter adaptiveMp4Video).filter (fun s => s.resolution.isSome))).reverse
  sortStrDesc
    (((video_streams.filterMap (fun s => s.resolution)).filter
      (fun r => !r.isEmpty)).dedup)

/-- The video-stream query of download_mp4 for the selected resolution:
    filter(adaptive, mp4, only_video, resolution=sel).first(). -/
def selectVideoStream (catalog : List StreamDescriptor) (sel : Str) :
    Option StreamDescriptor :=
  (catalog.filter (fun s => adaptiveMp4Video s && (s.resolution == some sel))).head?

/-- The audio-stream query of download_mp4:
    filter(adaptive, only_audio).order_by(abr).desc().first(). -/
def selectBestAudio (catalog : List StreamDescriptor) : Option StreamDescriptor :=
  ((List.insertionSort (keyLe abrVal)
    ((catalog.filter adaptiveAudio).filter (fun s => s.abr.isSome))).reverse).head?

/-- The audio-stream query of download_mp3:
    filter(only_audio).order_by(abr).desc().first(). -/
def selectAudioOnly (catalog : List StreamDescriptor) : Option StreamDescriptor :=
  ((List.insertionSort (keyLe abrVal)
    ((catalog.filter (fun s => s.only_audio)).filter (fun s => s.abr.isSome))).reverse).head?

/-- The progressive MP4 query of Link_to_YT.py:
    filter(progressive, mp4).order_by(resolution).desc().first(). -/
def chooseProgressiveMp4 (catalog : List StreamDescriptor) : Option StreamDescriptor :=
  ((List.insertionSort (keyLe resVal)
    ((catalog.filter progressiveMp4).filter (fun s => s.resolution.isSome))).reverse).head?

/-- The distinct user-facing error messages printed by the scripts. -/
inductive ErrKind
  | ffmpegMissing
  | invalidURL
  | noStreams
  | noVideoStream
  | noAudioStream
  | downloadError
  | mergeFailed
  | convertFailed
  | attrErrorNone
deriving DecidableEq

/-- Exceptions that escape a job instead of being rendered as messages. -/
inductive ExcKind
  | unboundLocal
deriving DecidableEq

/-- How a single job terminates: normal completion, an error message
    printed and a normal return, an exception propagating out of the
    function, or the job never returning because the interactive
    resolution prompt never receives a valid answer. -/
inductive Outcome
  | done
  | errPrinted (e : ErrKind)
  | raised (x : ExcKind)
  | blocked
deriving DecidableEq

/-- Network operations performed by a job: resolving the URL into a
    stream catalog, and downloading a stream. -/
inductive Event
  | resolveNet
  | downloadNet
deriving DecidableEq

/-- Result of running one job: its outcome, the final filesystem, and
    the trace of network events it performed. -/
structure JobResult where
  outcome : Outcome
  fs : FS
  events : List Event
deriving DecidableEq

/-- os.path.join of a directory and a filename. -/
def pjoin (d : Str) (n : Str) : Str := d ++ '/' :: n

/-- The fixed temporary filenames used by download_mp4. -/
def videoTempName : Str := ("video_temp.mp4").data

def audioTempName : Str := ("audio_temp.m4a").data

/-- External-world oracle for one download_mp4 job: whether the
    transcoder precheck, URL resolution, each download and the merge
    succeed, plus the catalog and title the resolver returns, the output
    directory and the sequence of resolution choices typed by the user. -/
structure Mp4Env where
  ffmpeg_ok : Bool
  resolve_ok : Bool
  catalog : List StreamDescriptor
  title : Str
  output_dir : Str
  user_inputs : List Str
  video_download_ok : Bool
  audio_download_ok : Bool
  merge_ok : Bool
deriving DecidableEq

/-- The final output path computed by download_mp4 before the downloads:
    the sanitized title with extension .mp4, de-duplicated against the
    filesystem. -/
def mp4FinalPath (env : Mp4Env) (fs : FS) : Str :=
  ensure_unique_filename fs
    (pjoin env.output_dir (sanitize_filename env.title ++ (".mp4").data))

/-- The cleanup step of download_mp4: delete each temporary file that
    exists, the video file first.  Removal is modelled as succeeding. -/
def cleanupTemps (vf af : Str) (fs : FS) : FS :=
  (fs.filter (fun q => q ≠ vf)).filter (fun q => q ≠ af)

/-- download_mp4 from TY_To_mp3_or_mp4.py over the world model: precheck
    the transcoder, resolve the catalog, list the resolutions, prompt for
    a choice until valid, select the video and audio streams, compute the
    final path, download both temporaries, merge, and clean up the
    temporaries on every exit path of the try block. -/
def download_mp4 (env : Mp4Env) (fs0 : FS) : JobResult :=
  if env.ffmpeg_ok = false then ⟨.errPrinted .ffmpegMissing, fs0, []⟩ else
  if env.resolve_ok = false then ⟨.errPrinted .invalidURL, fs0, [.resolveNet]⟩ else
  let resolutions := get_available_resolutions env.catalog
  if resolutions.isEmpty then ⟨.errPrinted .noStreams, fs0, [.resolveNet]⟩ else
  match env.user_inputs.find? (fun s => decide (s ∈ resolutions)) with
  | none => ⟨.blocked, fs0, [.resolveNet]⟩
  | some sel =>
    match selectVideoStream env.catalog sel with
    | none => ⟨.errPrinted .noVideoStream, fs0, [.resolveNet]⟩
    | some _ =>
      match selectBestAudio env.catalog with
      | none => ⟨.errPrinted .noAudioStream, fs0, [.resolveNet]⟩
      | some _ =>
        let video_file := pjoin env.output_dir videoTempName
        let audio_file := pjoin env.output_dir audioTempName
        let final_file := mp4FinalPath env fs0
        if env.video_download_ok = false then
          ⟨.errPrinted .downloadError, cleanupTemps video_file audio_file fs0,
            [.resolveNet, .downloadNet]⟩
        else
          let fs1 := createFile fs0 video_file
          if env.audio_download_ok = false then
            ⟨.errPrinted .downloadError, cleanupTemps video_file audio_file fs1,
              [.resolveNet, .downloadNet, .downloadNet]⟩
          else
            let fs2 := createFile fs1 audio_file
            if env.merge_ok = false then
              ⟨.errPrinted .mergeFailed, cleanupTemps video_file audio_file fs2,
                [.resolveNet, .downloadNet, .downloadNet]⟩
            else
              ⟨.done, cleanupTemps video_file audio_file (createFile fs2 final_file),
                [.resolveNet, .downloadNet, .downloadNet]⟩

/-- External-world oracle for one download_mp3 job.  temp_name is the
    default filename the library derives for stream.download. -/
structure Mp3Env where
  ffmpeg_ok : Bool
  resolve_ok : Bool
  catalog : List StreamDescriptor
  title : Str
  output_dir : Str
  temp_name : Str
  download_ok : Bool
  convert_ok : Bool
deriving DecidableEq

/-- download_mp3 from TY_To_mp3_or_mp4.py over the world model.  The
    source's finally block reads the variable temp_file; on every path on
    which stream.download was never assigned (URL resolution raising, no
    suitable audio stream, or the download itself raising), that read
    raises UnboundLocalError, which replaces the in-flight return or
    handled exception and propagates out of the function. -/
def download_mp3 (env : Mp3Env) (fs0 : FS) : JobResult :=
  if env.ffmpeg_ok = false then ⟨.errPrinted .ffmpegMissing, fs0, []⟩ else
  if env.resolve_ok = false then ⟨.raised .unboundLocal, fs0, [.resolveNet]⟩ else
  match selectAudioOnly env.catalog with
  | none => ⟨.raised .unboundLocal, fs0, [.resolveNet]⟩
  | some _ =>
    if env.download_ok = false then
      ⟨.raised .unboundLocal, fs0, [.resolveNet, .downloadNet]⟩
    else
      let temp_file := pjoin env.output_dir env.temp_name
      let fs1 := createFile fs0 temp_file
      let mp3_file := ensure_unique_filename fs1
        (pjoin env.output_dir (sanitize_filename env.title ++ (".mp3").data))
      if env.convert_ok = false then
        ⟨.errPrinted .convertFailed, fs1.filter (fun q => q ≠ temp_file),
          [.resolveNet, .downloadNet]⟩
      else
        ⟨.done, (createFile fs1 mp3_file).filter (fun q => q ≠ temp_file),
          [.resolveNet, .downloadNet]⟩

/-- Outcome of the MP4 branch of download_youtube in Link_to_YT.py: when
    the progressive MP4 query returns no stream, calling download on None
    raises an AttributeError that the top-level handler prints, and no
    file is produced. -/
def download_youtube_mp4 (catalog : List StreamDescriptor) : Outcome :=
  match chooseProgressiveMp4 catalog with
  | none => .errPrinted .attrErrorNone
  | some _ => .done

lemma getLast?_max {α : Type} {f : α → Nat} :
    ∀ (l : List α), l.Sorted (keyLe f) → l ≠ [] →
      ∃ y, l.getLast? = some y ∧ y ∈ l ∧ ∀ x ∈ l, f x ≤ f y := by
  intro l
  induction l with
  | nil => intro _ h; exact absurd rfl h
  | cons a t ih =>
    intro hs _
    cases t with
    | nil =>
      refine ⟨a, rfl, List.mem_singleton_self a, ?_⟩
      intro x hx
      rw [List.mem_singleton] at hx
      subst hx; exact le_rfl
    | cons b t' =>
      rcases List.sorted_cons.mp hs with ⟨ha, hs'⟩
      rcases ih hs' (List.cons_ne_nil b t') with ⟨y, h1, h2, h3⟩
      refine ⟨y, ?_, List.mem_cons_of_mem a h2, ?_⟩
      · rw [List.getLast?_cons_cons]; exact h1
      · intro x hx
        rcases List.mem_cons.mp hx with hx | hx
        · subst hx; exact ha y h2
        · exact h3 x hx

lemma sortDescFirst_max {α : Type} {f : α → Nat} (l : List α) (hne : l ≠ []) :
    ∃ y, ((List.insertionSort (keyLe f) l).reverse).head? = some y ∧ y ∈ l ∧
      ∀ x ∈ l, f x ≤ f y := by
  have hperm := List.perm_insertionSort (keyLe f) l
  have hsorted := List.sorted_insertionSort (keyLe f) l
  have hne' : List.insertionSort (keyLe f) l ≠ [] := by
    intro h
    exact hne (List.Perm.eq_nil (h ▸ hperm.symm))
  rcases getLast?_max _ hsorted hne' with ⟨y, h1, h2, h3⟩
  refine ⟨y, ?_, hperm.mem_iff.mp h2, ?_⟩
  · rw [List.head?_reverse]; exact h1
  · intro x hx
    exact h3 x (hperm.mem_iff.mpr hx)

lemma sortDescFirst_strictMax {α : Type} {f : α → Nat} (l : List α) (a : α)
    (ha : a ∈ l) (hmax : ∀ x ∈ l, x ≠ a → f x < f a) :
    ((List.insertionSort (keyLe f) l).reverse).head? = some a := by
  rcases sortDescFirst_max l (List.ne_nil_of_mem ha) with ⟨y, h1, h2, h3⟩
  rw [h1]
  congr 1
  by_contra hya
  exact absurd (h3 a ha) (Nat.not_le.mpr (hmax y h2 hya))

lemma filter_head_unique {α : Type} {p : α → Bool} :
    ∀ (l : List α) (v : α), v ∈ l → p v = true → (∀ t ∈ l, p t = true → t = v) →
      (l.filter p).head? = some v := by
  intro l
  induction l with
  | nil => intro v hv; exact absurd hv (List.not_mem_nil v)
  | cons a t ih =>
    intro v hv hpv huniq
    by_cases hpa : p a = true
    · have hav : a = v := huniq a (List.mem_cons_self a t) hpa
      subst hav
      simp [List.filter_cons, hpa]
    · have hva : v ≠ a := fun h => hpa (h ▸ hpv)
      have hvt : v ∈ t := by
        rcases List.mem_cons.mp hv with h | h
        · exact absurd h hva
        · exact h
      simp only [List.filter_cons, hpa, if_false, Bool.false_eq_true]
      exact ih v hvt hpv (fun t' ht' hpt' => huniq t' (List.mem_cons_of_mem a ht') hpt')

lemma mem_createFile {fs : FS} {p q : Str} :
    q ∈ createFile fs p ↔ q = p ∨ q ∈ fs := by
  unfold createFile
  by_cases h : p ∈ fs
  · simp only [h, if_true]
    constructor
    · exact Or.inr
    · rintro (rfl | hq)
      · exact h
      · exact hq
  · simp [h, List.mem_cons]

lemma mem_resolutions {catalog : List StreamDescriptor} {sel : Str}
    (h : sel ∈ get_available_resolutions catalog) :
    ∃ s ∈ catalog, adaptiveMp4Video s = true ∧ s.resolution = some sel := by
  unfold get_available_resolutions sortStrDesc at h
  have h1 := (List.perm_insertionSort strGe _).mem_iff.mp h
  rw [List.mem_dedup, List.mem_filter] at h1
  obtain ⟨h2, _⟩ := h1
  rw [List.mem_filterMap] at h2
  obtain ⟨s, hs, hres⟩ := h2
  rw [List.mem_reverse] at hs
  have hs2 := (List.perm_insertionSort (keyLe resVal) _).mem_iff.mp hs
  rw [List.mem_filter, List.mem_filter] at hs2
  exact ⟨s, hs2.1.1, hs2.1.2, hres⟩

lemma selectVideoStream_exists {catalog : List StreamDescriptor} {sel : Str}
    (h : sel ∈ get_available_resolutions catalog) :
    ∃ v, selectVideoStream catalog sel = some v := by
  obtain ⟨s, hs, hA, hres⟩ := mem_resolutions h
  have hmem : s ∈ catalog.filter
      (fun s => adaptiveMp4Video s && (s.resolution == some sel)) := by
    rw [List.mem_filter]
    exact ⟨hs, by simp [hA, hres]⟩
  unfold selectVideoStream
  cases hfil : catalog.filter (fun s => adaptiveMp4Video s && (s.resolution == some sel)) with
  | nil => rw [hfil] at hmem; exact absurd hmem (List.not_mem_nil s)
  | cons a t => exact ⟨a, rfl⟩

/-- Claim C2: in a download_mp4 job in which the transcoder precheck, the
    URL resolution, the user's resolution choice and both downloads
    succeed but the merge subprocess exits non-zero, after the job
    returns neither temporary file exists on disk and the final output
    file does not exist. -/
theorem download_mp4_merge_fail_cleanup
    (env : Mp4Env) (fs0 : FS)
    (h1 : env.ffmpeg_ok = true) (h2 : env.resolve_ok = true)
    (h3 : (env.user_inputs.find?
      (fun s => decide (s ∈ get_available_resolutions env.catalog))).isSome = true)
    (h4 : (selectBestAudio env.catalog).isSome = true)
    (h5 : env.video_download_ok = true) (h6 : env.audio_download_ok = true)
    (h7 : env.merge_ok = false) :
    (download_mp4 env fs0).outcome = Outcome.errPrinted ErrKind.mergeFailed ∧
    pjoin env.output_dir videoTempName ∉ (download_mp4 env fs0).fs ∧
    pjoin env.output_dir audioTempName ∉ (download_mp4 env fs0).fs ∧
    mp4FinalPath env fs0 ∉ (download_mp4 env fs0).fs := by
  obtain ⟨sel, hsel⟩ := Option.isSome_iff_exists.mp h3
  have hp := List.find?_some hsel
  have hmemsel : sel ∈ get_available_resolutions env.catalog := by
    simpa using hp
  have hnonempty : (get_available_resolutions env.catalog).isEmpty = false := by
    rw [List.isEmpty_eq_false]
    exact List.ne_nil_of_mem hmemsel
  obtain ⟨v, hvid⟩ := selectVideoStream_exists hmemsel
  obtain ⟨a, haud⟩ := Option.isSome_iff_exists.mp h4
  have hrun : download_mp4 env fs0 =
      ⟨.errPrinted .mergeFailed,
        cleanupTemps (pjoin env.output_dir videoTempName)
          (pjoin env.output_dir audioTempName)
          (createFile (createFile fs0 (pjoin env.output_dir videoTempName))
            (pjoin env.output_dir audioTempName)),
        [.resolveNet, .downloadNet, .downloadNet]⟩ := by
    unfold download_mp4
    simp only [h1, h2, hnonempty, hsel, hvid, haud, h5, h6, h7]
    simp
  rw [hrun]
  refine ⟨rfl, ?_, ?_, ?_⟩
  · simp [cleanupTemps, List.mem_filter]
  · simp [cleanupTemps, List.mem_filter]
  · intro hmem
    simp only [cleanupTemps, List.mem_filter, decide_eq_true_eq] at hmem
    obtain ⟨⟨hmem2, hnev⟩, hnea⟩ := hmem
    rcases mem_createFile.mp hmem2 with h | h
    · exact hnea h
    · rcases mem_createFile.mp h with h' | h'
      · exact hnev h'
      · exact ensure_unique_filename_not_mem fs0 _ h'

/-- Claim C8: when the transcoder binary is not invocable, both jobs
    report the transcoder-unavailable error with an empty network trace,
    and conversely any network event in a job trace implies the precheck
    succeeded first. -/
theorem transcoder_precheck_before_network :
    (∀ (env : Mp4Env) (fs0 : FS), env.ffmpeg_ok = false →
      (download_mp4 env fs0).outcome = Outcome.errPrinted ErrKind.ffmpegMissing ∧
      (download_mp4 env fs0).events = []) ∧
    (∀ (env : Mp3Env) (fs0 : FS), env.ffmpeg_ok = false →
      (download_mp3 env fs0).outcome = Outcome.errPrinted ErrKind.ffmpegMissing ∧
      (download_mp3 env fs0).events = []) ∧
    (∀ (env : Mp4Env) (fs0 : FS) (e : Event),
      e ∈ (download_mp4 env fs0).events → env.ffmpeg_ok = true) ∧
    (∀ (env : Mp3Env) (fs0 : FS) (e : Event),
      e ∈ (download_mp3 env fs0).events → env.ffmpeg_ok = true) := by
  refine ⟨?_, ?_, ?_, ?_⟩
  · intro env fs0 h
    unfold download_mp4
    rw [h]
    exact ⟨rfl, rfl⟩
  · intro env fs0 h
    unfold download_mp3
    rw [h]
    exact ⟨rfl, rfl⟩
  · intro env fs0 e hmem
    cases hff : env.ffmpeg_ok with
    | true => rfl
    | false =>
      unfold download_mp4 at hmem
      rw [hff] at hmem
      exact absurd hmem (List.not_mem_nil e)
  · intro env fs0 e hmem
    cases hff : env.ffmpeg_ok with
    | true => rfl
    | false =>
      unfold download_mp3 at hmem
      rw [hff] at hmem
      exact absurd hmem (List.not_mem_nil e)

/-- Claim C4: for every well-formed catalog (progressive streams carry a
    resolution), the progressive MP4 selector of Link_to_YT.py returns a
    stream of maximal resolution among the progressive MP4 entries when
    any exist, and when none exist it returns no stream and the job
    reports an error, producing no file. -/
theorem chooseProgressiveMp4_spec :
    (∀ (catalog : List StreamDescriptor),
      (∀ s ∈ catalog, progressiveMp4 s = true → s.resolution.isSome = true) →
      (∃ s ∈ catalog, progressiveMp4 s = true) →
      ∃ v, chooseProgressiveMp4 catalog = some v ∧ v ∈ catalog ∧
        progressiveMp4 v = true ∧
        ∀ t ∈ catalog, progressiveMp4 t = true → resVal t ≤ resVal v) ∧
    (∀ (catalog : List StreamDescriptor),
      (∀ s ∈ catalog, progressiveMp4 s = false) →
      chooseProgressiveMp4 catalog = none ∧
        download_youtube_mp4 catalog = Outcome.errPrinted ErrKind.attrErrorNone) := by
  constructor
  · rintro catalog hwf ⟨s, hs, hps⟩
    have hsl : s ∈ (catalog.filter progressiveMp4).filter (fun s => s.resolution.isSome) :=
      List.mem_filter.mpr ⟨List.mem_filter.mpr ⟨hs, hps⟩, hwf s hs hps⟩
    obtain ⟨y, h1, h2, h3⟩ :=
      sortDescFirst_max (f := resVal)
        ((catalog.filter progressiveMp4).filter (fun s => s.resolution.isSome))
        (List.ne_nil_of_mem hsl)
    rw [List.mem_filter, List.mem_filter] at h2
    refine ⟨y, h1, h2.1.1, h2.1.2, ?_⟩
    intro t ht hpt
    exact h3 t (List.mem_filter.mpr ⟨List.mem_filter.mpr ⟨ht, hpt⟩, hwf t ht hpt⟩)
  · intro catalog hnone
    have hfil : catalog.filter progressiveMp4 = [] :=
      List.filter_eq_nil_iff.mpr (fun a ha => by simp [hnone a ha])
    have hchoose : chooseProgressiveMp4 catalog = none := by
      unfold chooseProgressiveMp4
      rw [hfil]
      rfl
    refine ⟨hchoose, ?_⟩
    unfold download_youtube_mp4
    rw [hchoose]

/-- Claim C7: when the catalog has exactly one adaptive MP4 video-only
    stream at resolution 720p and an adaptive audio-only stream of
    strictly greatest abr, the selectors of download_mp4 return exactly
    that video stream and that audio stream, for every ordering of the
    catalog. -/
theorem select_720p_and_best_audio
    (catalog : List StreamDescriptor) (v a : StreamDescriptor) (k : Nat)
    (hv_mem : v ∈ catalog) (hv : adaptiveMp4Video v = true)
    (hvres : v.resolution = some (("720p").data))
    (hv_uniq : ∀ t ∈ catalog, adaptiveMp4Video t = true →
      t.resolution = some (("720p").data) → t = v)
    (ha_mem : a ∈ catalog) (ha : adaptiveAudio a = true) (hak : a.abr = some k)
    (ha_max : ∀ t ∈ catalog, adaptiveAudio t = true → t.abr.isSome = true →
      t ≠ a → abrVal t < k) :
    selectVideoStream catalog (("720p").data) = some v ∧
    selectBestAudio catalog = some a := by
  constructor
  · unfold selectVideoStream
    apply filter_head_unique catalog v hv_mem
    · simp [hv, hvres]
    · intro t ht hpt
      rw [Bool.and_eq_true] at hpt
      have hres : t.resolution = some (("720p").data) := by
        have := hpt.2
        rwa [beq_iff_eq] at this
      exact hv_uniq t ht hpt.1 hres
  · unfold selectBestAudio
    apply sortDescFirst_strictMax
    · exact List.mem_filter.mpr
        ⟨List.mem_filter.mpr ⟨ha_mem, ha⟩, by rw [hak]; rfl⟩
    · intro x hx hxa
      rw [List.mem_filter, List.mem_filter] at hx
      have hk : abrVal a = k := by simp [abrVal, hak]
      rw [hk]
      exact ha_max x hx.1.1 hx.1.2 hx.2 hxa

/-- Comparison of two values by a numeric key, descending. -/
def keyGe {α : Type} (f : α → Nat) (a b : α) : Prop := f b ≤ f a

instance {α : Type} (f : α → Nat) : DecidableRel (keyGe f) :=
  fun a b => Nat.decLe (f b) (f a)

/-- Modelled from the spec: the ordering availableResolutions is required
    to produce, resolution labels sorted descending by numeric value. -/
def numericDesc (l : List Str) : List Str := List.insertionSort (keyGe digitsVal) l

/-- An adaptive MP4 video-only stream at a given resolution label. -/
def vidStream (r : Str) : StreamDescriptor :=
  ⟨false, true, true, false, ("mp4").data, some r, none⟩

/-- An adaptive audio-only stream at a given abr value. -/
def audStream (k : Nat) : StreamDescriptor :=
  ⟨false, true, false, true, ("m4a").data, none, some k⟩

/-- A progressive MP4 stream at a given resolution label. -/
def progStream (r : Str) : StreamDescriptor :=
  ⟨true, false, false, false, ("mp4").data, some r, none⟩

/-- The catalog of the specification's resolution scenario. -/
def c1Catalog : List StreamDescriptor :=
  [vidStream (("1080p").data), vidStream (("720p").data), vidStream (("480p").data)]

/-- Claim C1 (code bug): on a catalog offering 1080p, 720p and 480p, the
    code returns the distinct labels in descending lexical string order,
    720p before 480p before 1080p, which differs from the descending
    numeric order the specification prescribes. -/
theorem get_available_resolutions_lexical_not_numeric :
    get_available_resolutions c1Catalog =
      [("720p").data, ("480p").data, ("1080p").data] ∧
    numericDesc (get_available_resolutions c1Catalog) =
      [("1080p").data, ("720p").data, ("480p").data] ∧
    get_available_resolutions c1Catalog ≠
      numericDesc (get_available_resolutions c1Catalog) := by
  refine ⟨by decide, by decide, by decide⟩

/-- A download_mp3 world where the URL resolution itself raises. -/
def c3EnvResolveFail : Mp3Env := ⟨true, false, [], [], [], [], true, true⟩

/-- A download_mp3 world where no suitable audio stream exists. -/
def c3EnvNoStream : Mp3Env := ⟨true, true, [], [], [], [], true, true⟩

/-- A download_mp3 world where the audio download raises. -/
def c3EnvDownloadFail : Mp3Env :=
  ⟨true, true, [audStream 128], [], [], [], false, true⟩

/-- Claim C3 (code bug): whenever a download_mp3 stage fails before the
    temporary-file variable is assigned (URL resolution raising, no
    suitable stream, or the download raising), the cleanup block's read
    of the unassigned variable raises UnboundLocalError, which propagates
    out of download_mp3 instead of being printed. -/
theorem download_mp3_unbound_local_raises :
    (download_mp3 c3EnvResolveFail []).outcome = Outcome.raised ExcKind.unboundLocal ∧
    (download_mp3 c3EnvNoStream []).outcome = Outcome.raised ExcKind.unboundLocal ∧
    (download_mp3 c3EnvDownloadFail []).outcome = Outcome.raised ExcKind.unboundLocal := by
  refine ⟨by decide, by decide, by decide⟩

/-- Claim C5: sanitize_filename always returns at most 50 characters and
    none of the invalid filename characters remain in its output. -/
theorem sanitize_filename_spec (s : Str) :
    (sanitize_filename s).length ≤ 50 ∧
    ∀ c, c ∈ sanitize_filename s → c ∉ invalid_chars :=
  ⟨sanitize_filename_length s, sanitize_filename_no_invalid s⟩

theorem sanitize_filename_spec_witness :
    (sanitize_filename (("a<b|c").data)).length ≤ 50 ∧ 'a' ∉ invalid_chars :=
  ⟨(sanitize_filename_spec (("a<b|c").data)).1,
   (sanitize_filename_spec (("a<b|c").data)).2 'a' (by decide)⟩

/-- Claim C10: sanitize_filename is idempotent. -/
theorem sanitize_filename_idem (s : Str) :
    sanitize_filename (sanitize_filename s) = sanitize_filename s :=
  sanitize_filename_idempotent s

/-- Claim C6: ensure_unique_filename returns its input unchanged when the
    path does not exist; against a directory holding exactly the N
    colliding files base.ext, base_1.ext, ..., base_(N-1).ext it returns
    the candidate with suffix _N; and in particular with video.mp4 and
    video_1.mp4 present it returns video_2.mp4. -/
theorem ensure_unique_filename_spec :
    (∀ (fs : FS) (fp : Str), fp ∉ fs → ensure_unique_filename fs fp = fp) ∧
    (∀ (b e fp : Str) (N : Nat), 1 ≤ N → splitext fp = (b, e) →
      ensure_unique_filename
        (fp :: (List.range (N - 1)).map (fun i => cand b e (i + 1))) fp = cand b e N) ∧
    ensure_unique_filename [("video.mp4").data, ("video_1.mp4").data]
      (("video.mp4").data) = ("video_2.mp4").data := by
  refine ⟨?_, ?_, by decide⟩
  · intro fs fp h
    unfold ensure_unique_filename
    simp [h]
  · intro b e fp N hN hsplit
    have hbe : b ++ e = fp := by
      have := splitext_append fp
      rwa [hsplit] at this
    have hfp : fp ∈ fp :: (List.range (N - 1)).map (fun i => cand b e (i + 1)) :=
      List.mem_cons_self _ _
    have hlen : (fp :: (List.range (N - 1)).map (fun i => cand b e (i + 1))).length = N := by
      simp only [List.length_cons, List.length_map, List.length_range]
      omega
    unfold ensure_unique_filename
    rw [if_pos hfp, hsplit, hlen]
    apply euLoop_run _ b e N (N + 1) 1 hN
    · intro k hk1 hk2
      refine List.mem_cons_of_mem _ (List.mem_map.mpr ⟨k - 1, ?_, ?_⟩)
      · rw [List.mem_range]; omega
      · congr 1; omega
    · intro hmem
      rcases List.mem_cons.mp hmem with h | h
      · exact cand_ne_base_ext b e N (h.trans hbe.symm)
      · rcases List.mem_map.mp h with ⟨i, hi, hieq⟩
        rw [List.mem_range] at hi
        have := cand_inj hieq
        omega
    · omega

theorem ensure_unique_filename_spec_witness :
    ensure_unique_filename [] (("a.txt").data) = ("a.txt").data ∧
    ensure_unique_filename
      ((("video.mp4").data) ::
        (List.range 1).map (fun i => cand (("video").data) ((".mp4").data) (i + 1)))
      (("video.mp4").data) = cand (("video").data) ((".mp4").data) 2 :=
  ⟨ensure_unique_filename_spec.1 [] (("a.txt").data) (by decide),
   ensure_unique_filename_spec.2.1 (("video").data) ((".mp4").data)
     (("video.mp4").data) 2 (by decide) (by decide)⟩

/-- Claim C9: the path ensure_unique_filename returns does not exist in
    the filesystem at the time of the call, the input splits into a
    basename part and an extension whose concatenation is the input, and
    the result is either the input itself or that basename with an
    underscore-number suffix inserted before the extension. -/
theorem ensure_unique_filename_fresh (fs : FS) (fp : Str) :
    ensure_unique_filename fs fp ∉ fs ∧
    (splitext fp).1 ++ (splitext fp).2 = fp ∧
    (ensure_unique_filename fs fp = fp ∨
      ∃ n, 1 ≤ n ∧
        ensure_unique_filename fs fp = cand (splitext fp).1 (splitext fp).2 n) := by
  refine ⟨ensure_unique_filename_not_mem fs fp, splitext_append fp, ?_⟩
  unfold ensure_unique_filename
  by_cases h : fp ∈ fs
  · simp only [h, if_true]
    obtain ⟨n, hn, heq⟩ :=
      euLoop_shape fs (splitext fp).1 (splitext fp).2 (fs.length + 1) 1
    exact Or.inr ⟨n, hn, heq⟩
  · simp [h]

/-- A concrete catalog with one 720p adaptive video and one audio stream. -/
def c2Catalog : List StreamDescriptor := [vidStream (("720p").data), audStream 128]

/-- A concrete download_mp4 world in which everything up to the merge
    succeeds and the merge fails. -/
def c2Env : Mp4Env :=
  ⟨true, true, c2Catalog, ("title").data, ("d").data, [("720p").data], true, true, false⟩

theorem download_mp4_merge_fail_cleanup_witness :
    (download_mp4 c2Env []).outcome = Outcome.errPrinted ErrKind.mergeFailed ∧
    pjoin c2Env.output_dir videoTempName ∉ (download_mp4 c2Env []).fs ∧
    pjoin c2Env.output_dir audioTempName ∉ (download_mp4 c2Env []).fs ∧
    mp4FinalPath c2Env [] ∉ (download_mp4 c2Env []).fs :=
  download_mp4_merge_fail_cleanup c2Env [] rfl rfl (by decide) (by decide) rfl rfl rfl

/-- A concrete catalog with two progressive MP4 streams. -/
def c4Catalog : List StreamDescriptor :=
  [progStream (("360p").data), progStream (("720p").data), audStream 50]

/-- A concrete catalog with no progressive MP4 stream. -/
def c4CatalogNone : List StreamDescriptor := [audStream 50]

theorem chooseProgressiveMp4_spec_witness :
    (∃ v, chooseProgressiveMp4 c4Catalog = some v ∧ v ∈ c4Catalog ∧
      progressiveMp4 v = true ∧
      ∀ t ∈ c4Catalog, progressiveMp4 t = true → resVal t ≤ resVal v) ∧
    (chooseProgressiveMp4 c4CatalogNone = none ∧
      download_youtube_mp4 c4CatalogNone = Outcome.errPrinted ErrKind.attrErrorNone) :=
  ⟨chooseProgressiveMp4_spec.1 c4Catalog (by decide) (by decide),
   chooseProgressiveMp4_spec.2 c4CatalogNone (by decide)⟩

/-- The unique 720p adaptive video stream of the C7 scenario. -/
def c7v : StreamDescriptor := vidStream (("720p").data)

/-- The strictly best audio stream of the C7 scenario. -/
def c7a : StreamDescriptor := audStream 160

/-- The C7 catalog in one order. -/
def c7CatalogA : List StreamDescriptor :=
  [vidStream (("1080p").data), c7v, vidStream (("480p").data), audStream 128, c7a]

/-- The C7 catalog in the reversed order. -/
def c7CatalogB : List StreamDescriptor :=
  [c7a, audStream 128, vidStream (("480p").data), c7v, vidStream (("1080p").data)]

theorem select_720p_and_best_audio_witness :
    (selectVideoStream c7CatalogA (("720p").data) = some c7v ∧
      selectBestAudio c7CatalogA = some c7a) ∧
    (selectVideoStream c7CatalogB (("720p").data) = some c7v ∧
      selectBestAudio c7CatalogB = some c7a) :=
  ⟨select_720p_and_best_audio c7CatalogA c7v c7a 160 (by decide) (by decide)
      (by decide) (by decide) (by decide) (by decide) (by decide) (by decide),
   select_720p_and_best_audio c7CatalogB c7v c7a 160 (by decide) (by decide)
      (by decide) (by decide) (by decide) (by decide) (by decide) (by decide)⟩

/-- A download_mp4 world with the transcoder absent. -/
def c8Mp4Env : Mp4Env := ⟨false, true, [], [], [], [], true, true, true⟩

/-- A download_mp3 world with the transcoder absent. -/
def c8Mp3Env : Mp3Env := ⟨false, true, [], [], [], [], true, true⟩

/-- A download_mp4 world with the transcoder present and resolution failing. -/
def c8Mp4EnvOn : Mp4Env := ⟨true, false, [], [], [], [], true, true, true⟩

/-- A download_mp3 world with the transcoder present and resolution failing. -/
def c8Mp3EnvOn : Mp3Env := ⟨true, false, [], [], [], [], true, true⟩

theorem transcoder_precheck_before_network_witness :
    ((download_mp4 c8Mp4Env []).outcome = Outcome.errPrinted ErrKind.ffmpegMissing ∧
      (download_mp4 c8Mp4Env []).events = []) ∧
    ((download_mp3 c8Mp3Env []).outcome = Outcome.errPrinted ErrKind.ffmpegMissing ∧
      (download_mp3 c8Mp3Env []).events = []) ∧
    c8Mp4EnvOn.ffmpeg_ok = true ∧ c8Mp3EnvOn.ffmpeg_ok = true :=
  ⟨transcoder_precheck_before_network.1 c8Mp4Env [] rfl,
   transcoder_precheck_before_network.2.1 c8Mp3Env [] rfl,
   transcoder_precheck_before_network.2.2.1 c8Mp4EnvOn [] Event.resolveNet (by decide),
   transcoder_precheck_before_network.2.2.2 c8Mp3EnvOn [] Event.resolveNet (by decide)⟩

end YtDl
